import Mathlib

/-!
Verification of the insurance policy-query system: a shallow embedding of
`parse.py` (regex-driven query parsing) and `everything.py` (the two-stage
decision engine of `InsuranceClaimsProcessor`), together with proofs of the
behavioural properties stated in the specification.

Python regular expressions are embedded via a small backtracking matcher
monad `PolicyQuery.M`: each concrete pattern of the source is translated
constructor by constructor (literals, character classes, greedy `*`/`+`/
bounded repetition, ordered alternation, optional groups, word boundaries,
negative lookahead), preserving Python's leftmost-search and
first-alternative backtracking order.  Machine floats are modelled as real
numbers; `round` is Python's banker's rounding, computed exactly.
-/

namespace PolicyQuery

/-! ### Character classes and Python string primitives (ASCII) -/

/-- Python `\s` for ASCII text (also the character set of `str.strip`). -/
def isSpaceCh (c : Char) : Bool :=
  c = ' ' || c = '\t' || c = '\n' || c = '\r' || c = '\x0b' || c = '\x0c'

/-- Python `\d` (ASCII). -/
def isDigitCh (c : Char) : Bool := '0' ≤ c && c ≤ '9'

def isLowerCh (c : Char) : Bool := 'a' ≤ c && c ≤ 'z'

def isUpperCh (c : Char) : Bool := 'A' ≤ c && c ≤ 'Z'

def isAlphaCh (c : Char) : Bool := isLowerCh c || isUpperCh c

/-- Python `\w` (ASCII). -/
def isWordCh (c : Char) : Bool := isAlphaCh c || isDigitCh c || c = '_'

def lowerCh (c : Char) : Char :=
  if isUpperCh c then Char.ofNat (c.toNat + 32) else c

def upperCh (c : Char) : Char :=
  if isLowerCh c then Char.ofNat (c.toNat - 32) else c

/-- Python `str.lower` (ASCII). -/
def pyLower (s : String) : String := String.mk (s.toList.map lowerCh)

/-- Python `str.strip` with no argument. -/
def pyStrip (s : String) : String :=
  String.mk (((s.toList.dropWhile isSpaceCh).reverse.dropWhile isSpaceCh).reverse)

def pySplitGo : List Char → List Char → List String
  | [], acc => if acc.isEmpty then [] else [String.mk acc.reverse]
  | c :: cs, acc =>
    if isSpaceCh c then
      if acc.isEmpty then pySplitGo cs [] else String.mk acc.reverse :: pySplitGo cs []
    else pySplitGo cs (c :: acc)

/-- Python `str.split` with no argument: split on whitespace runs, no empties. -/
def pySplit (s : String) : List String := pySplitGo s.toList []

def startsWithCl : List Char → List Char → Bool
  | [], _ => true
  | _ :: _, [] => false
  | p :: ps, c :: cs => p = c && startsWithCl ps cs

def containsSubCl (pat : List Char) : List Char → Bool
  | [] => pat.isEmpty
  | c :: cs => startsWithCl pat (c :: cs) || containsSubCl pat cs

/-- Python substring test `pat in hay`. -/
def containsSub (hay pat : String) : Bool := containsSubCl pat.toList hay.toList

def pyTitleGo : Bool → List Char → List Char
  | _, [] => []
  | prevAlpha, c :: cs =>
    (if isAlphaCh c then (if prevAlpha then lowerCh c else upperCh c) else c)
      :: pyTitleGo (isAlphaCh c) cs

/-- Python `str.title` (ASCII): uppercase each letter that follows a non-letter. -/
def pyTitle (s : String) : String := String.mk (pyTitleGo false s.toList)

/-- Python `int` on a string of digits. -/
def digToNat (l : List Char) : ℕ := l.foldl (fun a c => a * 10 + (c.toNat - '0'.toNat)) 0

/-- Python `round(num / den)` for a nonnegative numerator and positive
denominator: round half to even (banker's rounding), computed exactly.
(`num / 30` here has denominator 30, so the float in the source is exact
whenever the value is a half-integer, and safely far from halves
otherwise; exact rational rounding therefore models the source's float
rounding faithfully.) -/
def pyRoundDiv (num den : ℕ) : ℕ :=
  let q := num / den
  let r := num % den
  if 2 * r < den then q
  else if den < 2 * r then q + 1
  else if q % 2 = 0 then q else q + 1

/-- Python `min` over a non-empty list of ints (0 as junk value on `[]`). -/
def pyMin : List ℕ → ℕ
  | [] => 0
  | a :: rest => rest.foldl Nat.min a

/-- Python truthiness of an optional int field (`None` and `0` are falsy). -/
def truthyOptNat : Option ℕ → Bool
  | none => false
  | some n => decide (n ≠ 0)

/-- Python truthiness of an optional string field (`None` and `""` are falsy). -/
def truthyOptStr : Option String → Bool
  | none => false
  | some s => decide (s ≠ "")

/-- Python `str.isdigit` (ASCII). -/
def pyIsdigit (s : String) : Bool := !s.toList.isEmpty && s.toList.all isDigitCh

/-! ### A backtracking matcher monad for the source's regular expressions

A matcher takes the character preceding the current position (for `\b`) and
the remaining input, and returns every way it can match a prefix of the
input, in Python's backtracking preference order (head = most preferred).
Each result carries the captured value, the new preceding character and the
remaining input. -/

def M (α : Type) : Type :=
  Option Char → List Char → List (α × Option Char × List Char)

def mpure (a : α) : M α := fun prev rest => [(a, prev, rest)]

def mbind (m : M α) (f : α → M β) : M β := fun prev rest =>
  (m prev rest).flatMap fun r => f r.1 r.2.1 r.2.2

instance : Monad M where
  pure := mpure
  bind := mbind

def mfail : M α := fun _ _ => []

/-- Ordered choice: Python tries the left alternative first. -/
def morelse (a b : M α) : M α := fun prev rest => a prev rest ++ b prev rest

/-- Ordered alternation `(x|y|...)`. -/
def talt (ms : List (M α)) : M α := ms.foldr morelse mfail

/-- A single character from a class. -/
def tchar (p : Char → Bool) : M Char := fun _ rest =>
  match rest with
  | [] => []
  | c :: cs => if p c then [(c, some c, cs)] else []

/-- A literal character sequence. -/
def tlit : List Char → M Unit
  | [] => mpure ()
  | a :: as => mbind (tchar (· = a)) fun _ => tlit as

def tstr (s : String) : M Unit := tlit s.toList

/-- A literal, capturing itself (for captured alternations). -/
def tlitCap (s : String) : M String := mbind (tstr s) fun _ => mpure s

def taltStrs (ss : List String) : M String := talt (ss.map tlitCap)

def tstarGo (p : Char → Bool) (acc : List Char) (prev : Option Char) :
    List Char → List (List Char × Option Char × List Char)
  | [] => [(acc, prev, [])]
  | c :: cs =>
    if p c then tstarGo p (acc ++ [c]) (some c) cs ++ [(acc, prev, c :: cs)]
    else [(acc, prev, c :: cs)]

/-- Greedy `p*`: all splits, longest first. -/
def tstar (p : Char → Bool) : M (List Char) := fun prev rest => tstarGo p [] prev rest

/-- Greedy `p+`. -/
def tplus (p : Char → Bool) : M (List Char) := fun prev rest =>
  (tstarGo p [] prev rest).filter fun r => !r.1.isEmpty

def trepGo (p : Char → Bool) :
    ℕ → List Char → Option Char → List Char → List (List Char × Option Char × List Char)
  | 0, acc, prev, rest => [(acc, prev, rest)]
  | _ + 1, acc, prev, [] => [(acc, prev, [])]
  | hi + 1, acc, prev, c :: cs =>
    if p c then trepGo p hi (acc ++ [c]) (some c) cs ++ [(acc, prev, c :: cs)]
    else [(acc, prev, c :: cs)]

/-- Greedy bounded repetition `p{lo,hi}`. -/
def trep (p : Char → Bool) (lo hi : ℕ) : M (List Char) := fun prev rest =>
  (trepGo p hi [] prev rest).filter fun r => lo ≤ r.1.length

/-- Greedy option `m?`: the present parse is preferred. -/
def topt (m : M α) : M (Option α) := morelse (mbind m fun a => mpure (some a)) (mpure none)

def isWordOpt : Option Char → Bool
  | none => false
  | some c => isWordCh c

/-- Word boundary `\b`: consumes nothing. -/
def twb : M Unit := fun prev rest =>
  if isWordOpt prev = isWordOpt rest.head? then [] else [((), prev, rest)]

/-- Negative lookahead over a character class, e.g. `(?![a-z])`. -/
def tnegChar (p : Char → Bool) : M Unit := fun prev rest =>
  match rest with
  | [] => [((), prev, [])]
  | c :: _ => if p c then [] else [((), prev, rest)]

/-- Negative lookahead over literal alternatives, e.g. `(?!ale|ore)`. -/
def tnegStrs (ss : List String) : M Unit := fun prev rest =>
  if ss.any fun s => startsWithCl s.toList rest then [] else [((), prev, rest)]

/-- `re.search`: leftmost match, with the match's preferred parse. -/
def reSearchAux (m : M α) : Option Char → List Char → Option (α × Option Char × List Char)
  | prev, [] => (m prev []).head?
  | prev, c :: cs =>
    match (m prev (c :: cs)).head? with
    | some r => some r
    | none => reSearchAux m (some c) cs

def reSearchL (m : M α) (cs : List Char) : Option α :=
  (reSearchAux m none cs).map (·.1)

/-- `re.findall` / `re.finditer`: successive non-overlapping leftmost matches. -/
def scanAllAux (m : M α) : ℕ → Option Char → List Char → List α
  | 0, _, _ => []
  | fuel + 1, prev, cs =>
    match reSearchAux m prev cs with
    | none => []
    | some (a, p2, rest) =>
      if rest.length < cs.length then a :: scanAllAux m fuel p2 rest
      else
        match rest with
        | [] => [a]
        | c :: rs => a :: scanAllAux m fuel (some c) rs

def scanAllL (m : M α) (cs : List Char) : List α := scanAllAux m (cs.length + 1) none cs

/-! ### `parse.py`: the query parser -/

/-- The raw argument of `parse_query`: a Python value that is a string,
`None`, or some non-string object. -/
inductive RawInput
  | noneInput
  | strInput (s : String)
  | nonStrInput
deriving DecidableEq, Repr

/-- The dictionary returned by `parse_query`. -/
structure ParsedQuery where
  raw_query : RawInput
  age : Option ℕ
  gender : Option String
  procedure : Option String
  location : Option String
  policy_duration_months : Option ℕ
deriving DecidableEq, Repr

def emptyParsed (q : RawInput) : ParsedQuery :=
  { raw_query := q, age := none, gender := none, procedure := none,
    location := none, policy_duration_months := none }

/-- Age+gender pattern 1: `\b(\d{1,3})\s*[/\-,]?\s*([mf])(?![a-z])\b`. -/
def agPat0 : M (String × Option String) := do
  twb
  let d ← trep isDigitCh 1 3
  _ ← tstar isSpaceCh
  _ ← topt (tchar fun c => c = '/' || c = '-' || c = ',')
  _ ← tstar isSpaceCh
  let g ← tchar fun c => c = 'm' || c = 'f'
  tnegChar isLowerCh
  twb
  pure (String.mk d, some (String.mk [g]))

/-- Age+gender pattern 2: `\b(\d{1,3})\s+(male|female)\b`. -/
def agPat1 : M (String × Option String) := do
  twb
  let d ← trep isDigitCh 1 3
  _ ← tplus isSpaceCh
  let g ← taltStrs ["male", "female"]
  twb
  pure (String.mk d, some g)

/-- Age+gender pattern 3: `\b(male|female)\s+(\d{1,3})\b` (gender first). -/
def agPat2 : M (String × Option String) := do
  twb
  let g ← taltStrs ["male", "female"]
  _ ← tplus isSpaceCh
  let d ← trep isDigitCh 1 3
  twb
  pure (g, some (String.mk d))

/-- Age+gender pattern 4: `\bage[:\s]*(\d{1,3})[,\s]*(male|female)?\b`. -/
def agPat3 : M (String × Option String) := do
  twb
  tstr "age"
  _ ← tstar fun c => c = ':' || isSpaceCh c
  let d ← trep isDigitCh 1 3
  _ ← tstar fun c => c = ',' || isSpaceCh c
  let g ← topt (taltStrs ["male", "female"])
  twb
  pure (String.mk d, g)

/-- Age+gender pattern 5: `\b(male|female)[,\s]*age[:\s]*(\d{1,3})\b`. -/
def agPat4 : M (String × Option String) := do
  twb
  let g ← taltStrs ["male", "female"]
  _ ← tstar fun c => c = ',' || isSpaceCh c
  tstr "age"
  _ ← tstar fun c => c = ':' || isSpaceCh c
  let d ← trep isDigitCh 1 3
  twb
  pure (g, some (String.mk d))

/-- Whether the pattern at index `i` puts the age in group 1 (`i ∈ [0,1,3]`)
or the gender in group 1 (`i ∈ [2,4]`). -/
inductive AgeGenderOrd
  | ageFirst
  | genderFirst

def ageGenderPatterns : List (M (String × Option String) × AgeGenderOrd) :=
  [(agPat0, .ageFirst), (agPat1, .ageFirst), (agPat2, .genderFirst),
   (agPat3, .ageFirst), (agPat4, .genderFirst)]

/-- `group.lower().startswith('m') / ('f')` dispatch of the source. -/
def genderOfStr (s : String) : Option String :=
  if startsWithCl ['m'] (pyLower s).toList then some "Male"
  else if startsWithCl ['f'] (pyLower s).toList then some "Female"
  else none

/-- The body of the combined age+gender loop for the pattern that matched:
sets age (and gender) only when the captured age lies in `[0,120]`. -/
def applyAgeGender (ord : AgeGenderOrd) (cap : String × Option String) :
    Option ℕ × Option String :=
  match ord with
  | .ageFirst =>
    if pyIsdigit cap.1 then
      let age := digToNat cap.1.toList
      if age ≤ 120 then
        (some age, match cap.2 with
          | some g => genderOfStr g
          | none => none)
      else (none, none)
    else (none, none)
  | .genderFirst =>
    match cap.2 with
    | some d =>
      if pyIsdigit d then
        let age := digToNat d.toList
        if age ≤ 120 then (some age, genderOfStr cap.1) else (none, none)
      else (none, none)
    | none => (none, none)

/-- The combined age+gender cascade: the first pattern whose search succeeds
is processed and the loop breaks (even if its captured age is discarded). -/
def ageGenderScan :
    List (M (String × Option String) × AgeGenderOrd) → List Char → Option ℕ × Option String
  | [], _ => (none, none)
  | (m, ord) :: rest, cs =>
    match reSearchL m cs with
    | some cap => applyAgeGender ord cap
    | none => ageGenderScan rest cs

/-- Age-only pattern 1: `\bage[:\s]*(\d{1,3})\b`. -/
def agePatA0 : M String := do
  twb
  tstr "age"
  _ ← tstar fun c => c = ':' || isSpaceCh c
  let d ← trep isDigitCh 1 3
  twb
  pure (String.mk d)

/-- Age-only pattern 2: `\b(\d{1,3})\s*(?:years?|yrs?)\s*old\b`. -/
def agePatA1 : M String := do
  twb
  let d ← trep isDigitCh 1 3
  _ ← tstar isSpaceCh
  _ ← taltStrs ["years", "year", "yrs", "yr"]
  _ ← tstar isSpaceCh
  tstr "old"
  twb
  pure (String.mk d)

/-- Age-only pattern 3: `\b(\d{1,3})\s*yo\b`. -/
def agePatA2 : M String := do
  twb
  let d ← trep isDigitCh 1 3
  _ ← tstar isSpaceCh
  tstr "yo"
  twb
  pure (String.mk d)

def ageOnlyPatterns : List (M String) := [agePatA0, agePatA1, agePatA2]

/-- The age-only fallback loop: here the `break` sits inside the range
check, so an out-of-range capture lets the next pattern be tried. -/
def ageOnlyScan : List (M String) → List Char → Option ℕ
  | [], _ => none
  | m :: ms, cs =>
    match reSearchL m cs with
    | some d =>
      let age := digToNat d.toList
      if age ≤ 120 then some age else ageOnlyScan ms cs
    | none => ageOnlyScan ms cs

/-- Gender-only pattern 1: `\b(male|female)\b`. -/
def genderPatG0 : M String := do
  twb
  let g ← taltStrs ["male", "female"]
  twb
  pure g

/-- Gender-only pattern 2: `\b([mf])(?![a-z])\b`. -/
def genderPatG1 : M String := do
  twb
  let c ← tchar fun c => c = 'm' || c = 'f'
  tnegChar isLowerCh
  twb
  pure (String.mk [c])

def genderOnlyPatterns : List (M String) := [genderPatG0, genderPatG1]

/-- The gender-only fallback loop (breaks on the first search match). -/
def genderOnlyScan : List (M String) → List Char → Option String
  | [], _ => none
  | m :: ms, cs =>
    match reSearchL m cs with
    | some g =>
      let gs := pyLower g
      if gs = "male" || gs = "m" then some "Male"
      else if gs = "female" || gs = "f" then some "Female"
      else none
    | none => genderOnlyScan ms cs

/-- Long duration units `(months?|mo(?:nth)?(?!le)|years?|yrs?|days?)`,
capturing the matched text, alternatives in source order. -/
def unitAltLong : M String :=
  talt
    [do tstr "month"
        let s ← topt (tchar (· = 's'))
        pure (if s.isSome then "months" else "month"),
     do tstr "mo"
        let n ← topt (tstr "nth")
        tnegStrs ["le"]
        pure (if n.isSome then "month" else "mo"),
     do tstr "year"
        let s ← topt (tchar (· = 's'))
        pure (if s.isSome then "years" else "year"),
     do tstr "yr"
        let s ← topt (tchar (· = 's'))
        pure (if s.isSome then "yrs" else "yr"),
     do tstr "day"
        let s ← topt (tchar (· = 's'))
        pure (if s.isSome then "days" else "day")]

/-- Duration pattern 1:
`\b(\d+)\s*[-]?\s*(months?|mo(?:nth)?(?!le)|years?|yrs?|days?)\s*(?:policy|plan|coverage)?\b`. -/
def durPat0 : M (ℕ × String) := do
  twb
  let d ← tplus isDigitCh
  _ ← tstar isSpaceCh
  _ ← topt (tchar (· = '-'))
  _ ← tstar isSpaceCh
  let u ← unitAltLong
  _ ← tstar isSpaceCh
  _ ← topt (taltStrs ["policy", "plan", "coverage"])
  twb
  pure (digToNat d, u)

/-- Duration pattern 2:
`\b(?:policy|plan|coverage)\s*(?:of|for)?\s*(\d+)\s*(months?|mo(?:nth)?(?!le)|years?|yrs?|days?)\b`. -/
def durPat1 : M (ℕ × String) := do
  twb
  _ ← taltStrs ["policy", "plan", "coverage"]
  _ ← tstar isSpaceCh
  _ ← topt (taltStrs ["of", "for"])
  _ ← tstar isSpaceCh
  let d ← tplus isDigitCh
  _ ← tstar isSpaceCh
  let u ← unitAltLong
  twb
  pure (digToNat d, u)

/-- Short duration units `(m(?!ale|ore)|y(?!oung)|d)`. -/
def unitAltShort : M String :=
  talt
    [do _ ← tchar (· = 'm')
        tnegStrs ["ale", "ore"]
        pure "m",
     do _ ← tchar (· = 'y')
        tnegStrs ["oung"]
        pure "y",
     do _ ← tchar (· = 'd')
        pure "d"]

/-- Duration pattern 3: `\b(\d+)\s*[-]?\s*(m(?!ale|ore)|y(?!oung)|d)\s*(?:policy|plan)?\b`. -/
def durPat2 : M (ℕ × String) := do
  twb
  let d ← tplus isDigitCh
  _ ← tstar isSpaceCh
  _ ← topt (tchar (· = '-'))
  _ ← tstar isSpaceCh
  let u ← unitAltShort
  _ ← tstar isSpaceCh
  _ ← topt (taltStrs ["policy", "plan"])
  twb
  pure (digToNat d, u)

def durationPatterns : List (M (ℕ × String)) := [durPat0, durPat1, durPat2]

/-- The source's unit normalization (note: the `'y'` keyword also matches
inside `"day"`/`"days"`, so those units take the years branch). -/
def durationToMonths (num : ℕ) (unit : String) : ℕ :=
  if ["year", "yr", "y"].any (fun k => containsSub unit k) then num * 12
  else if ["day", "d"].any (fun k => containsSub unit k) then
    Nat.max 1 (pyRoundDiv num 30)
  else num

/-- The duration loop: first pattern whose search matches wins. -/
def durationScan : List (M (ℕ × String)) → List Char → Option ℕ
  | [], _ => none
  | m :: ms, cs =>
    match reSearchL m cs with
    | some cap => some (durationToMonths cap.1 (pyLower cap.2))
    | none => durationScan ms cs

/-- The gazetteer `cities_mapping`, in source (insertion) order. -/
def citiesMapping : List (String × String) :=
  [("pune", "Pune"), ("mumbai", "Mumbai"), ("delhi", "Delhi"), ("new delhi", "Delhi"),
   ("bangalore", "Bangalore"), ("bengaluru", "Bangalore"), ("chennai", "Chennai"),
   ("kolkata", "Kolkata"), ("calcutta", "Kolkata"), ("hyderabad", "Hyderabad"),
   ("ahmedabad", "Ahmedabad"), ("surat", "Surat"), ("jaipur", "Jaipur"),
   ("lucknow", "Lucknow"), ("kanpur", "Kanpur"), ("nagpur", "Nagpur"),
   ("indore", "Indore"), ("thane", "Thane"), ("bhopal", "Bhopal"),
   ("visakhapatnam", "Visakhapatnam"), ("pimpri", "Pimpri"), ("patna", "Patna"),
   ("vadodara", "Vadodara"), ("ghaziabad", "Ghaziabad"), ("ludhiana", "Ludhiana"),
   ("agra", "Agra"), ("nashik", "Nashik"), ("faridabad", "Faridabad"),
   ("meerut", "Meerut"), ("rajkot", "Rajkot")]

/-- `sorted(cities_mapping.keys(), key=len, reverse=True)`: a stable sort by
decreasing length (insertion sort with a non-strict descending relation is
stable, like Python's `sorted`). -/
def sortedCities : List String :=
  (citiesMapping.map Prod.fst).insertionSort fun a b => b.length ≤ a.length

/-- `re.search(rf"\b{city}\b", text)` for one gazetteer key. -/
def cityFound (city : String) (cs : List Char) : Bool :=
  (reSearchL (do twb; tstr city; twb; pure ()) cs).isSome

/-- The location loop: first (longest-sorted) city found wins. -/
def locationGo : List String → List Char → Option String
  | [], _ => none
  | city :: rest, cs =>
    if cityFound city cs then some ((citiesMapping.lookup city).getD "")
    else locationGo rest cs

/-- `medical_keywords` flattened in source (insertion) order. -/
def allKeywords : List String :=
  ["surgery", "surgical", "operation", "operative",
   "replacement", "implant", "prosthetic",
   "reconstruction", "reconstructive", "repair",
   "treatment", "therapy", "therapeutic",
   "biopsy", "scan", "test", "screening", "examination",
   "angioplasty", "bypass", "stent", "cardiac",
   "transplant", "transplantation",
   "procedure", "intervention"]

def kwAlt : M String := taltStrs allKeywords

/-- Procedure pattern 1: `\b([a-z]+)\s+(kw1|kw2|...)\b`, capturing `group(0)`. -/
def procPat1 : M String := do
  twb
  let b ← tplus isLowerCh
  let sp ← tplus isSpaceCh
  let k ← kwAlt
  twb
  pure (String.mk b ++ String.mk sp ++ k)

/-- Procedure pattern 2: `\b(kw1|...)\s+(?:of|on|for)\s+([a-z]+)\b`. -/
def procPat2 : M String := do
  twb
  let k ← kwAlt
  let s1 ← tplus isSpaceCh
  let w ← taltStrs ["of", "on", "for"]
  let s2 ← tplus isSpaceCh
  let b ← tplus isLowerCh
  twb
  pure (k ++ String.mk s1 ++ w ++ String.mk s2 ++ String.mk b)

/-- Procedure pattern 3: `\b(kw1|...)\b`. -/
def procPat3 : M String := do
  twb
  let k ← kwAlt
  twb
  pure k

/-- Procedure pattern 4:
`\b([a-z]+\s+(?:replacement|reconstruction|repair)(?:\s+surgery)?)\b`. -/
def procPat4 : M String := do
  twb
  let b ← tplus isLowerCh
  let sp ← tplus isSpaceCh
  let k ← taltStrs ["replacement", "reconstruction", "repair"]
  let t ← topt do
    let s2 ← tplus isSpaceCh
    tstr "surgery"
    pure (String.mk s2 ++ "surgery")
  twb
  pure (String.mk b ++ String.mk sp ++ k ++ t.getD "")

def procedurePatterns : List (M String) := [procPat1, procPat2, procPat3, procPat4]

/-- All `finditer` matches of all four procedure patterns; the strictly
longest stripped `group(0)` wins (ties keep the first found). -/
def bestProcedure (cs : List Char) : Option String :=
  (procedurePatterns.foldl
    (fun acc m =>
      (scanAllL m cs).foldl
        (fun a t =>
          let t2 := pyStrip t
          if a.2 < t2.length then (some t2, t2.length) else a)
        acc)
    ((none : Option String), 0)).1

/-- `' '.join(best.split()).title()`. -/
def normalizeProcedure (s : String) : String :=
  pyTitle (String.intercalate " " (pySplit s))

/-- `parse_query` of `parse.py`. -/
def parse_query (q : RawInput) : ParsedQuery :=
  match q with
  | .noneInput => emptyParsed q
  | .nonStrInput => emptyParsed q
  | .strInput s =>
    if s = "" then emptyParsed q
    else
      let cs := (pyStrip (pyLower s)).toList
      let ag := ageGenderScan ageGenderPatterns cs
      let age := match ag.1 with
        | some a => some a
        | none => ageOnlyScan ageOnlyPatterns cs
      let gender := match ag.2 with
        | some g => some g
        | none => genderOnlyScan genderOnlyPatterns cs
      { raw_query := q,
        age := age,
        gender := gender,
        procedure := (bestProcedure cs).map normalizeProcedure,
        location := locationGo sortedCities cs,
        policy_duration_months := durationScan durationPatterns cs }

/-! ### `everything.py`: the decision engine

The external sentence-transformer encoder is a collaborator: it is modelled
as an optional function `String → Option (List ℝ)` (`none` for a processor
whose model failed to load; an inner `none` for an `encode` call that
raises).  Clause embeddings are real vectors; `np.dot` on vectors of
different lengths raises, which the source catches, so a length guard
stands where the source has `try/except`. -/

/-- The encoder collaborator (`self.model.encode`). -/
def Encoder : Type := String → Option (List ℝ)

/-- One record of the clause corpus. -/
structure Clause where
  text : String
  embedding : Option (List ℝ)

/-- The justification strings of the source, with their interpolated data
(score formatting is kept symbolically rather than as decimal text). -/
inductive Msg
  | invalidQuery
  | waitingShortfall (months required : ℕ) (procedure : String)
  | missingInfo
  | semanticError
  | excluded (procedure : String) (score : ℝ)
  | covered (procedure : String) (score : ℝ)
  | potentialCoverage (procedure : String) (score : ℝ)
  | notFound (procedure : String)

/-- The decision record returned by the engine. -/
structure Decision where
  decision : String
  justification : List Msg
  clauses : List String
  confidence : ℝ

/-- `np.dot` on equal-length vectors. -/
noncomputable def dotl (a b : List ℝ) : ℝ := (List.zipWith (· * ·) a b).sum

/-- `np.linalg.norm`. -/
noncomputable def norml (a : List ℝ) : ℝ := Real.sqrt (dotl a a)

/-- The `1e-8` added to the cosine denominator. -/
noncomputable def eps : ℝ := 1e-8

/-- Waiting-period units `(day|days|month|months|year|years|yr|yrs)`. -/
def wunitAlt : M String :=
  taltStrs ["day", "days", "month", "months", "year", "years", "yr", "yrs"]

/-- Waiting pattern 1: `(\d+)\s*(day|days|month|months|year|years|yr|yrs)`. -/
def waitPat1 : M (String × String) := do
  let d ← tplus isDigitCh
  _ ← tstar isSpaceCh
  let u ← wunitAlt
  pure (String.mk d, u)

/-- Waiting pattern 2: `(\d+)[-]?(day|days|month|months|year|years|yr|yrs)`. -/
def waitPat2 : M (String × String) := do
  let d ← tplus isDigitCh
  _ ← topt (tchar (· = '-'))
  let u ← wunitAlt
  pure (String.mk d, u)

/-- Waiting pattern 3:
`waiting\s+period\s+(?:of\s+)?(\d+)\s*(day|days|month|months|year|years|yr|yrs)`. -/
def waitPat3 : M (String × String) := do
  tstr "waiting"
  _ ← tplus isSpaceCh
  tstr "period"
  _ ← tplus isSpaceCh
  _ ← topt do
    tstr "of"
    _ ← tplus isSpaceCh
    pure ()
  let d ← tplus isDigitCh
  _ ← tstar isSpaceCh
  let u ← wunitAlt
  pure (String.mk d, u)

/-- Conversion of one `findall` tuple to months (`None` for `num <= 0`);
this function, unlike `parse.py`'s, handles `day` units correctly. -/
def waitingPeriodOfMatch (cap : String × String) : Option ℕ :=
  let num := digToNat cap.1.toList
  if num = 0 then none
  else if containsSub cap.2 "year" || containsSub cap.2 "yr" then some (num * 12)
  else if containsSub cap.2 "day" then some (Nat.max 1 (pyRoundDiv num 30))
  else some num

/-- `InsuranceClaimsProcessor.extract_waiting_periods`. -/
def extract_waiting_periods (text : String) : List ℕ :=
  if text = "" then []
  else
    [waitPat1, waitPat2, waitPat3].foldl
      (fun acc m => acc ++ (scanAllL m (pyLower text).toList).filterMap waitingPeriodOfMatch)
      []

/-- `InsuranceClaimsProcessor.compute_similarity`: bounded cosine
similarity of the two encoded texts; any failure (no model, empty text,
encoder exception, `np.dot` shape error) yields `0.0`. -/
noncomputable def compute_similarity (enc : Option Encoder) (text1 text2 : String) : ℝ :=
  match enc with
  | none => 0
  | some f =>
    if text1 = "" || text2 = "" then 0
    else
      match f text1, f text2 with
      | some emb1, some emb2 =>
        if emb1.length = emb2.length then
          max 0 (min 1 (dotl emb1 emb2 / (norml emb1 * norml emb2 + eps)))
        else 0
      | _, _ => 0

/-- The lexical part of stage 1's clause relevance: some procedure token of
length `> 2` occurs in the clause text. -/
def procTermMatches (terms : List String) (ctext : String) : Bool :=
  terms.any fun t => decide (2 < t.length) && containsSub ctext t

/-- Stage 1's full relevance test for one clause: lexical overlap, or — when
a model is present — `compute_similarity(procedure, clause_text) > 0.3`. -/
noncomputable def procedureMentionedB (enc : Option Encoder) (proc ctext : String) : Bool :=
  if procTermMatches (pySplit proc) ctext then true
  else
    match enc with
    | none => false
    | some f => decide (compute_similarity (some f) proc ctext > 0.3)

/-- One iteration of `check_waiting_period`'s clause loop, accumulating the
pool of extracted periods and the texts of clauses that yielded some. -/
noncomputable def waitingStep (enc : Option Encoder) (proc : String)
    (acc : List ℕ × List String) (clause : Clause) : List ℕ × List String :=
  let ctext := pyLower clause.text
  if !containsSub ctext "waiting period" then acc
  else if procedureMentionedB enc proc ctext then
    let periods := extract_waiting_periods ctext
    if periods.isEmpty then acc
    else (acc.1 ++ periods, acc.2 ++ [clause.text])
  else acc

noncomputable def waitingScan (enc : Option Encoder) (proc : String)
    (clauses : List Clause) : List ℕ × List String :=
  clauses.foldl (waitingStep enc proc) ([], [])

/-- `InsuranceClaimsProcessor.check_waiting_period` (stage 1). -/
noncomputable def check_waiting_period (enc : Option Encoder) (clauses : List Clause)
    (pq : ParsedQuery) : Option Decision :=
  if !truthyOptNat pq.policy_duration_months ||
      !truthyOptStr pq.procedure || clauses.isEmpty then none
  else
    let policy_duration := pq.policy_duration_months.getD 0
    let procLow := pyLower (pq.procedure.getD "")
    let r := waitingScan enc procLow clauses
    if r.1.isEmpty then none
    else
      let min_required := pyMin r.1
      if policy_duration < min_required then
        some { decision := "rejected",
               justification :=
                 [Msg.waitingShortfall policy_duration min_required (pq.procedure.getD "")],
               clauses := r.2.take 2,
               confidence := 0.9 }
      else none

/-- Whether stage 2 scores a clause: a cached non-empty embedding whose
length matches the procedure embedding (`np.dot` raises otherwise and the
clause is skipped). -/
def scoredB (pe : List ℝ) (c : Clause) : Bool :=
  match c.embedding with
  | none => false
  | some e => !e.isEmpty && decide (e.length = pe.length)

/-- The raw cosine score stage 2 computes for a scored clause. -/
noncomputable def clauseSim (pe : List ℝ) (c : Clause) : ℝ :=
  match c.embedding with
  | some e => dotl pe e / (norml pe * norml e + eps)
  | none => 0

/-- One iteration of stage 2's best-match loop (strict improvement only, so
the first-seen clause wins exact ties). -/
noncomputable def coverageStep (pe : List ℝ) (acc : Option Clause × ℝ) (clause : Clause) :
    Option Clause × ℝ :=
  match clause.embedding with
  | none => acc
  | some e =>
    if e.isEmpty then acc
    else if e.length = pe.length then
      let sim := dotl pe e / (norml pe * norml e + eps)
      if acc.2 < sim then (some clause, sim) else acc
    else acc

noncomputable def bestCoverage (pe : List ℝ) (clauses : List Clause) : Option Clause × ℝ :=
  clauses.foldl (coverageStep pe) (none, 0)

def exclusion_keywords : List String :=
  ["not covered", "excluded", "not payable", "not eligible",
   "except", "excluding", "does not cover", "shall not",
   "not applicable", "not included"]

def hasExclusion (t : String) : Bool :=
  exclusion_keywords.any fun k => containsSub (pyLower t) k

/-- `InsuranceClaimsProcessor.check_procedure_coverage` (stage 2). -/
noncomputable def check_procedure_coverage (enc : Option Encoder) (clauses : List Clause)
    (pq : ParsedQuery) : Decision :=
  if !truthyOptStr pq.procedure || clauses.isEmpty || enc.isNone then
    { decision := "needs_review", justification := [Msg.missingInfo],
      clauses := [], confidence := 0 }
  else
    let procedure := pq.procedure.getD ""
    match enc with
    | none =>
      { decision := "needs_review", justification := [Msg.missingInfo],
        clauses := [], confidence := 0 }
    | some f =>
      match f procedure with
      | none =>
        { decision := "needs_review", justification := [Msg.semanticError],
          clauses := [], confidence := 0 }
      | some proc_emb =>
        let r := bestCoverage proc_emb clauses
        match r.1 with
        | some best =>
          if 0.45 < r.2 then
            if hasExclusion best.text then
              { decision := "rejected", justification := [Msg.excluded procedure r.2],
                clauses := [best.text], confidence := min 0.9 (r.2 + 0.1) }
            else
              { decision := "approved", justification := [Msg.covered procedure r.2],
                clauses := [best.text], confidence := r.2 }
          else if 0.25 < r.2 then
            { decision := "needs_review", justification := [Msg.potentialCoverage procedure r.2],
              clauses := [best.text], confidence := r.2 }
          else
            { decision := "needs_review", justification := [Msg.notFound procedure],
              clauses := [], confidence := 0 }
        | none =>
          { decision := "needs_review", justification := [Msg.notFound procedure],
            clauses := [], confidence := 0 }

/-- `InsuranceClaimsProcessor.make_decision`: stage 1 short-circuits stage 2. -/
noncomputable def make_decision (enc : Option Encoder) (clauses : List Clause)
    (parsed : Option ParsedQuery) : Decision :=
  match parsed with
  | none =>
    { decision := "needs_review", justification := [Msg.invalidQuery],
      clauses := [], confidence := 0 }
  | some pq =>
    match check_waiting_period enc clauses pq with
    | some d => d
    | none => check_procedure_coverage enc clauses pq

/-! State-passing renderings of the decision functions: the mutable state a
call could touch (the parsed dictionary and the clause corpus) is threaded
explicitly; the source performs no write to either, and the wrappers return
the state they received. -/

noncomputable def check_waiting_period_st (enc : Option Encoder)
    (st : ParsedQuery × List Clause) : Option Decision × (ParsedQuery × List Clause) :=
  (check_waiting_period enc st.2 st.1, st)

noncomputable def check_procedure_coverage_st (enc : Option Encoder)
    (st : ParsedQuery × List Clause) : Decision × (ParsedQuery × List Clause) :=
  (check_procedure_coverage enc st.2 st.1, st)

noncomputable def make_decision_st (enc : Option Encoder)
    (st : Option ParsedQuery × List Clause) :
    Decision × (Option ParsedQuery × List Clause) :=
  match st.1 with
  | none =>
    ({ decision := "needs_review", justification := [Msg.invalidQuery],
       clauses := [], confidence := 0 }, st)
  | some pq =>
    let r1 := check_waiting_period_st enc (pq, st.2)
    match r1.1 with
    | some d => (d, (some r1.2.1, r1.2.2))
    | none =>
      let r2 := check_procedure_coverage_st enc r1.2
      (r2.1, (some r2.2.1, r2.2.2))

/-! ### Definitions taken from the specification's wording, for comparison
with the source behaviour -/

/-- Modelled from the spec and claim wording for stage 1: a clause is
"relevant" when its text contains the substring `"waiting period"` and
lexically or semantically matches the procedure — with no requirement that
any waiting period was actually extracted from it.  The claim asserts the
rejection cites the first two texts of this list. -/
noncomputable def specRelevantTexts (enc : Option Encoder) (proc : String)
    (clauses : List Clause) : List String :=
  (clauses.filter fun c =>
      containsSub (pyLower c.text) "waiting period"
        && procedureMentionedB enc proc (pyLower c.text)).map
    (fun c => c.text)

/-- Modelled from the claim wording for the age+gender cascade: a pattern
whose captured age is out of range is "treated as a non-match", i.e. the
cascade continues with the later patterns. -/
def ageGenderScanClaim :
    List (M (String × Option String) × AgeGenderOrd) → List Char → Option ℕ × Option String
  | [], _ => (none, none)
  | (m, ord) :: rest, cs =>
    match reSearchL m cs with
    | some cap =>
      match applyAgeGender ord cap with
      | (none, none) => ageGenderScanClaim rest cs
      | r => r
    | none => ageGenderScanClaim rest cs

/-! ### Concrete corpora and queries used in counterexamples and witnesses -/

/-- A relevant waiting-period clause that yields no numeric period. -/
def clauseNoNumber : Clause :=
  { text := "a waiting period applies to surgery", embedding := none }

/-- A relevant waiting-period clause stating 24 months. -/
def clause24m : Clause :=
  { text := "surgery has waiting period of 24 months", embedding := none }

/-- A parsed query: procedure "surgery", policy active for 1 month. -/
def pqSurgery1m : ParsedQuery :=
  { raw_query := .nonStrInput, age := none, gender := none,
    procedure := some "surgery", location := none, policy_duration_months := some 1 }

/-- A clause whose text mentions a 24-month waiting period for knee surgery. -/
def clauseKnee24m : Clause :=
  { text := "waiting period of 24 months for knee surgery", embedding := none }

/-- An encoder that encodes every text as the vector `[1]`. -/
noncomputable def encOne : Encoder := fun _ => some [(1 : ℝ)]

/-- A covered-procedure clause carrying the cached embedding `[1]`. -/
noncomputable def clauseCovered : Clause :=
  { text := "knee surgery is covered under this policy", embedding := some [(1 : ℝ)] }

/-- A parsed query with only the procedure set. -/
def pqKneeOnly : ParsedQuery :=
  { raw_query := .nonStrInput, age := none, gender := none,
    procedure := some "knee surgery", location := none, policy_duration_months := none }

/-- A parsed query with no procedure. -/
def pqNoProc : ParsedQuery :=
  { raw_query := .nonStrInput, age := none, gender := none,
    procedure := none, location := none, policy_duration_months := some 12 }

/-! ### Lemmas: the cosine score is nonnegative and strictly below 1 -/

theorem dotl_nil_left (b : List ℝ) : dotl [] b = 0 := rfl

theorem dotl_nil_right (a : List ℝ) : dotl a [] = 0 := by
  cases a <;> rfl

theorem dotl_cons_cons (x y : ℝ) (a b : List ℝ) :
    dotl (x :: a) (y :: b) = x * y + dotl a b := rfl

theorem dotl_self_nonneg (a : List ℝ) : 0 ≤ dotl a a := by
  induction a with
  | nil => exact le_of_eq (dotl_nil_left []).symm
  | cons x as ih =>
    rw [dotl_cons_cons]
    have := mul_self_nonneg x
    linarith

/-- Cauchy–Schwarz for the truncating list dot product, squared form. -/
theorem dotl_sq_le (a : List ℝ) : ∀ b : List ℝ, (dotl a b) ^ 2 ≤ dotl a a * dotl b b := by
  induction a with
  | nil =>
    intro b
    rw [dotl_nil_left, dotl_nil_left]
    norm_num
  | cons x as ih =>
    intro b
    cases b with
    | nil =>
      rw [dotl_nil_right, dotl_nil_right]
      have := dotl_self_nonneg (x :: as)
      nlinarith
    | cons y bs =>
      have hA := dotl_self_nonneg as
      have hB := dotl_self_nonneg bs
      have hIH := ih bs
      rw [dotl_cons_cons, dotl_cons_cons, dotl_cons_cons]
      rcases eq_or_lt_of_le hA with hA0 | hApos
      · have hd : dotl as bs = 0 := by nlinarith [sq_nonneg (dotl as bs)]
        rw [hd, ← hA0]
        nlinarith [mul_self_nonneg x, mul_self_nonneg y, mul_nonneg (mul_self_nonneg x) hB]
      · nlinarith [sq_nonneg (x * dotl as bs - y * dotl as as),
          mul_nonneg (add_nonneg (mul_self_nonneg x) hA) (sub_nonneg.2 hIH)]

/-- Cauchy–Schwarz: the dot product is at most the product of the norms. -/
theorem dotl_le_norml_mul (a b : List ℝ) : dotl a b ≤ norml a * norml b := by
  have h3 : Real.sqrt ((dotl a b) ^ 2) ≤ Real.sqrt (dotl a a * dotl b b) :=
    Real.sqrt_le_sqrt (dotl_sq_le a b)
  rw [Real.sqrt_sq_eq_abs, Real.sqrt_mul (dotl_self_nonneg a)] at h3
  rw [norml, norml]
  exact (le_abs_self _).trans h3

theorem eps_pos : (0 : ℝ) < eps := by
  rw [eps]
  norm_num

theorem norml_nonneg (a : List ℝ) : 0 ≤ norml a := Real.sqrt_nonneg _

/-- The epsilon in the denominator keeps it strictly positive even for
zero-magnitude vectors. -/
theorem cosine_denom_pos (a b : List ℝ) : 0 < norml a * norml b + eps :=
  add_pos_of_nonneg_of_pos (mul_nonneg (norml_nonneg a) (norml_nonneg b)) eps_pos

/-- The raw cosine score of stage 2 is strictly below 1. -/
theorem cosine_raw_lt_one (a b : List ℝ) :
    dotl a b / (norml a * norml b + eps) < 1 := by
  rw [div_lt_one (cosine_denom_pos a b)]
  have := dotl_le_norml_mul a b
  have := eps_pos
  linarith

theorem clauseSim_lt_one (pe : List ℝ) (c : Clause) : clauseSim pe c < 1 := by
  rw [clauseSim]
  cases c.embedding with
  | none => norm_num
  | some e => exact cosine_raw_lt_one pe e

/-! ### Lemmas: the best-match fold of stage 2 -/

theorem coverageStep_not_scored (pe : List ℝ) (acc : Option Clause × ℝ) (c : Clause)
    (h : scoredB pe c = false) : coverageStep pe acc c = acc := by
  rw [scoredB] at h
  cases hc : c.embedding with
  | none => simp only [coverageStep, hc]
  | some e =>
    rw [hc] at h
    simp only [Bool.and_eq_false_iff, Bool.not_eq_false', decide_eq_false_iff_not] at h
    simp only [coverageStep, hc]
    rcases h with h | h
    · rw [if_pos h]
    · by_cases h1 : e.isEmpty
      · rw [if_pos h1]
      · rw [if_neg h1, if_neg h]

theorem coverageStep_scored (pe : List ℝ) (acc : Option Clause × ℝ) (c : Clause)
    (h : scoredB pe c = true) :
    coverageStep pe acc c =
      if acc.2 < clauseSim pe c then (some c, clauseSim pe c) else acc := by
  rw [scoredB] at h
  cases hc : c.embedding with
  | none => rw [hc] at h; exact absurd h (by simp)
  | some e =>
    rw [hc] at h
    simp only [Bool.and_eq_true, Bool.not_eq_true', decide_eq_true_eq] at h
    simp only [coverageStep, clauseSim, hc]
    rw [if_neg (by rw [h.1]; exact Bool.false_ne_true), if_pos h.2]

theorem coverage_foldl_filter (pe : List ℝ) :
    ∀ (l : List Clause) (acc : Option Clause × ℝ),
      l.foldl (coverageStep pe) acc = (l.filter (scoredB pe)).foldl (coverageStep pe) acc := by
  intro l
  induction l with
  | nil => intro acc; rfl
  | cons c cs ih =>
    intro acc
    rw [List.foldl_cons]
    cases h : scoredB pe c with
    | false =>
      rw [List.filter_cons_of_neg (by rw [h]; exact Bool.false_ne_true),
        coverageStep_not_scored pe acc c h, ih]
    | true =>
      rw [List.filter_cons_of_pos h, List.foldl_cons, ih]

theorem coverage_foldl_snd_mono (pe : List ℝ) :
    ∀ (l : List Clause) (acc : Option Clause × ℝ), acc.2 ≤ (l.foldl (coverageStep pe) acc).2 := by
  intro l
  induction l with
  | nil => intro acc; exact le_refl _
  | cons c cs ih =>
    intro acc
    rw [List.foldl_cons]
    refine le_trans ?_ (ih (coverageStep pe acc c))
    cases hc : c.embedding with
    | none => simp only [coverageStep, hc]; exact le_refl _
    | some e =>
      simp only [coverageStep, hc]
      by_cases h1 : e.isEmpty
      · rw [if_pos h1]
      · rw [if_neg h1]
        by_cases h2 : e.length = pe.length
        · rw [if_pos h2]
          by_cases h3 : acc.2 < dotl pe e / (norml pe * norml e + eps)
          · rw [if_pos h3]; exact le_of_lt h3
          · rw [if_neg h3]
        · rw [if_neg h2]

theorem coverage_foldl_snd_lt_one (pe : List ℝ) :
    ∀ (l : List Clause) (acc : Option Clause × ℝ),
      acc.2 < 1 → (l.foldl (coverageStep pe) acc).2 < 1 := by
  intro l
  induction l with
  | nil => intro acc h; exact h
  | cons c cs ih =>
    intro acc h
    rw [List.foldl_cons]
    refine ih _ ?_
    cases hc : c.embedding with
    | none => simp only [coverageStep, hc]; exact h
    | some e =>
      simp only [coverageStep, hc]
      by_cases h1 : e.isEmpty
      · rw [if_pos h1]; exact h
      · rw [if_neg h1]
        by_cases h2 : e.length = pe.length
        · rw [if_pos h2]
          by_cases h3 : acc.2 < dotl pe e / (norml pe * norml e + eps)
          · rw [if_pos h3]; exact cosine_raw_lt_one pe e
          · rw [if_neg h3]; exact h
        · rw [if_neg h2]; exact h

theorem coverage_foldl_snd_max (pe : List ℝ) :
    ∀ (l : List Clause), (∀ c ∈ l, scoredB pe c = true) →
      ∀ acc : Option Clause × ℝ,
        (l.foldl (coverageStep pe) acc).2 =
          l.foldl (fun a c => max a (clauseSim pe c)) acc.2 := by
  intro l
  induction l with
  | nil => intro _ acc; rfl
  | cons c cs ih =>
    intro hl acc
    rw [List.foldl_cons, List.foldl_cons,
      coverageStep_scored pe acc c (hl c (List.mem_cons_self c cs))]
    by_cases h : acc.2 < clauseSim pe c
    · rw [if_pos h, ih (fun x hx => hl x (List.mem_cons_of_mem c hx)) (some c, clauseSim pe c),
        max_eq_right (le_of_lt h)]
    · rw [if_neg h, ih (fun x hx => hl x (List.mem_cons_of_mem c hx)) acc,
        max_eq_left (not_lt.mp h)]

theorem coverage_foldl_first_attain (pe : List ℝ) :
    ∀ (l : List Clause), (∀ c ∈ l, scoredB pe c = true) →
      ∀ (b : Option Clause) (s : ℝ),
        (s < (l.foldl (coverageStep pe) (b, s)).2 →
          (l.foldl (coverageStep pe) (b, s)).1 =
            l.find? fun c => decide (clauseSim pe c = (l.foldl (coverageStep pe) (b, s)).2)) ∧
        ((l.foldl (coverageStep pe) (b, s)).2 ≤ s →
          l.foldl (coverageStep pe) (b, s) = (b, s)) := by
  intro l
  induction l with
  | nil =>
    intro _ b s
    exact ⟨fun h => absurd h (lt_irrefl s), fun _ => rfl⟩
  | cons c cs ih =>
    intro hl b s
    have hc := hl c (List.mem_cons_self c cs)
    have hcs := fun x hx => hl x (List.mem_cons_of_mem c hx)
    rw [List.foldl_cons, coverageStep_scored pe (b, s) c hc]
    by_cases hbs : (b, s).2 < clauseSim pe c
    · rw [if_pos hbs]
      have hmono := coverage_foldl_snd_mono pe cs (some c, clauseSim pe c)
      constructor
      · intro _
        by_cases h2 : clauseSim pe c < (cs.foldl (coverageStep pe) (some c, clauseSim pe c)).2
        · rw [(ih hcs (some c) (clauseSim pe c)).1 h2, List.find?_cons_of_neg]
          simp only [decide_eq_true_eq]
          exact ne_of_lt h2
        · have heq := (ih hcs (some c) (clauseSim pe c)).2 (not_lt.mp h2)
          rw [heq]
          rw [List.find?_cons_of_pos]
          exact decide_eq_true rfl
      · intro hle
        exact absurd (lt_of_lt_of_le hbs hmono) (not_lt.mpr hle)
    · rw [if_neg hbs]
      constructor
      · intro hlt
        rw [(ih hcs b s).1 hlt, List.find?_cons_of_neg]
        simp only [decide_eq_true_eq]
        exact ne_of_lt (lt_of_le_of_lt (not_lt.mp hbs) hlt)
      · exact (ih hcs b s).2

/-- Full characterisation of stage 2's best-match fold: the score is the
running maximum (from 0) of the cosine scores of the scored clauses, it
lies in `[0, 1)`, and when positive the cited clause is the first scored
clause attaining it (strict improvement means first-seen wins ties). -/
theorem bestCoverage_spec (pe : List ℝ) (clauses : List Clause) :
    (bestCoverage pe clauses).2 =
      (clauses.filter (scoredB pe)).foldl (fun a c => max a (clauseSim pe c)) 0 ∧
    0 ≤ (bestCoverage pe clauses).2 ∧ (bestCoverage pe clauses).2 < 1 ∧
    (0 < (bestCoverage pe clauses).2 →
      (bestCoverage pe clauses).1 =
        (clauses.filter (scoredB pe)).find?
          fun c => decide (clauseSim pe c = (bestCoverage pe clauses).2)) ∧
    ((bestCoverage pe clauses).2 ≤ 0 → bestCoverage pe clauses = (none, 0)) := by
  have hfil : ∀ c ∈ clauses.filter (scoredB pe), scoredB pe c = true := by
    intro c hcmem
    exact List.of_mem_filter hcmem
  have hbase : bestCoverage pe clauses =
      (clauses.filter (scoredB pe)).foldl (coverageStep pe) ((none : Option Clause), (0 : ℝ)) := by
    rw [bestCoverage, coverage_foldl_filter]
  refine ⟨?_, ?_, ?_, ?_, ?_⟩
  · rw [hbase, coverage_foldl_snd_max pe _ hfil]
  · rw [bestCoverage]
    exact coverage_foldl_snd_mono pe clauses (none, 0)
  · rw [bestCoverage]
    exact coverage_foldl_snd_lt_one pe clauses (none, 0) (by norm_num)
  · intro hpos
    rw [hbase]
    rw [hbase] at hpos
    exact (coverage_foldl_first_attain pe _ hfil none 0).1 hpos
  · intro hle
    rw [hbase]
    rw [hbase] at hle
    exact (coverage_foldl_first_attain pe _ hfil none 0).2 hle

/-! ### Lemmas: shapes of the stage results -/

theorem isEmpty_false_of_ne_nil {α : Type} {l : List α} (h : l ≠ []) : l.isEmpty = false := by
  cases l with
  | nil => exact absurd rfl h
  | cons a as => rfl

/-- Any decision stage 1 actually returns is the fixed rejection record. -/
theorem check_waiting_period_shape (enc : Option Encoder) (clauses : List Clause)
    (pq : ParsedQuery) (d : Decision) (h : check_waiting_period enc clauses pq = some d) :
    d.decision = "rejected" ∧ d.confidence = 0.9 ∧
      d.clauses = (waitingScan enc (pyLower (pq.procedure.getD "")) clauses).2.take 2 := by
  rw [check_waiting_period] at h
  split at h
  · exact absurd h (by simp)
  · dsimp only at h
    split at h
    · exact absurd h (by simp)
    · split at h
      · rw [Option.some.injEq] at h
        rw [← h]
        exact ⟨rfl, rfl, rfl⟩
      · exact absurd h (by simp)

/-- Stage 2's result is the missing-data record, the encoder-failure
record, or one of the three banded records over the best score. -/
theorem coverage_cases (enc : Option Encoder) (clauses : List Clause) (pq : ParsedQuery) :
    ((check_procedure_coverage enc clauses pq).decision = "needs_review" ∧
      (check_procedure_coverage enc clauses pq).confidence = 0) ∨
    (∃ f pe, enc = some f ∧ f (pq.procedure.getD "") = some pe ∧
      (((check_procedure_coverage enc clauses pq).decision = "needs_review" ∧
          (check_procedure_coverage enc clauses pq).confidence = (bestCoverage pe clauses).2 ∧
          0.25 < (bestCoverage pe clauses).2 ∧ (bestCoverage pe clauses).2 ≤ 0.45) ∨
        ((check_procedure_coverage enc clauses pq).decision = "approved" ∧
          (check_procedure_coverage enc clauses pq).confidence = (bestCoverage pe clauses).2 ∧
          0.45 < (bestCoverage pe clauses).2) ∨
        ((check_procedure_coverage enc clauses pq).decision = "rejected" ∧
          (check_procedure_coverage enc clauses pq).confidence =
            min 0.9 ((bestCoverage pe clauses).2 + 0.1) ∧
          0.45 < (bestCoverage pe clauses).2))) := by
  rw [check_procedure_coverage]
  split
  · left
    exact ⟨rfl, rfl⟩
  · cases henc : enc with
    | none =>
      left
      exact ⟨rfl, rfl⟩
    | some f =>
      dsimp only
      cases hf : f (pq.procedure.getD "") with
      | none =>
        left
        exact ⟨rfl, rfl⟩
      | some pe =>
        dsimp only
        cases hbm : (bestCoverage pe clauses).1 with
        | none =>
          left
          exact ⟨rfl, rfl⟩
        | some best =>
          dsimp only
          by_cases h45 : (0.45 : ℝ) < (bestCoverage pe clauses).2
          · rw [if_pos h45]
            right
            refine ⟨f, pe, rfl, hf, ?_⟩
            by_cases hex : hasExclusion best.text
            · rw [if_pos hex]
              exact Or.inr (Or.inr ⟨rfl, rfl, h45⟩)
            · rw [if_neg hex]
              exact Or.inr (Or.inl ⟨rfl, rfl, h45⟩)
          · rw [if_neg h45]
            by_cases h25 : (0.25 : ℝ) < (bestCoverage pe clauses).2
            · rw [if_pos h25]
              right
              exact ⟨f, pe, rfl, hf, Or.inl ⟨rfl, rfl, h25, not_lt.mp h45⟩⟩
            · rw [if_neg h25]
              left
              exact ⟨rfl, rfl⟩

/-! ### The claims -/

/-- Claim C1: for every parsed query and clause corpus, the decision
record returned by `make_decision` has confidence in `[0,1]`: a
waiting-period rejection fixes it at `0.9`, a coverage rejection uses
`min 0.9 (s + 0.1)`, approval uses the best similarity score `s`, and
every needs-review branch uses `s` or `0`. -/
theorem claim_C1_confidence_bounds (enc : Option Encoder) (clauses : List Clause)
    (parsed : Option ParsedQuery) :
    0 ≤ (make_decision enc clauses parsed).confidence ∧
    (make_decision enc clauses parsed).confidence ≤ 1 ∧
    (∀ pq d, check_waiting_period enc clauses pq = some d → d.confidence = 0.9) ∧
    ((make_decision enc clauses parsed).decision = "approved" →
      ∃ pq f pe, parsed = some pq ∧ enc = some f ∧ f (pq.procedure.getD "") = some pe ∧
        (make_decision enc clauses parsed).confidence = (bestCoverage pe clauses).2) ∧
    ((make_decision enc clauses parsed).decision = "rejected" →
      (make_decision enc clauses parsed).confidence = 0.9 ∨
      ∃ pq f pe, parsed = some pq ∧ enc = some f ∧ f (pq.procedure.getD "") = some pe ∧
        (make_decision enc clauses parsed).confidence =
          min 0.9 ((bestCoverage pe clauses).2 + 0.1)) ∧
    ((make_decision enc clauses parsed).decision = "needs_review" →
      (make_decision enc clauses parsed).confidence = 0 ∨
      ∃ pq f pe, parsed = some pq ∧ enc = some f ∧ f (pq.procedure.getD "") = some pe ∧
        (make_decision enc clauses parsed).confidence = (bestCoverage pe clauses).2) := by
  have hwshape : ∀ pq d, check_waiting_period enc clauses pq = some d → d.confidence = 0.9 :=
    fun pq d h => (check_waiting_period_shape enc clauses pq d h).2.1
  cases parsed with
  | none =>
    simp only [make_decision]
    refine ⟨le_refl 0, by norm_num, hwshape, ?_, ?_, ?_⟩
    · intro h
      exact absurd h (by decide)
    · intro h
      exact absurd h (by decide)
    · intro _
      left
      trivial
  | some pq =>
    simp only [make_decision]
    cases hw : check_waiting_period enc clauses pq with
    | some d =>
      have hd := check_waiting_period_shape enc clauses pq d hw
      refine ⟨?_, ?_, hwshape, ?_, ?_, ?_⟩
      · rw [hd.2.1]; norm_num
      · rw [hd.2.1]; norm_num
      · intro h
        rw [hd.1] at h
        exact absurd h (by decide)
      · intro _
        exact Or.inl hd.2.1
      · intro h
        rw [hd.1] at h
        exact absurd h (by decide)
    | none =>
      rcases coverage_cases enc clauses pq with hcase | ⟨f, pe, henc, hf, hband⟩
      · refine ⟨?_, ?_, hwshape, ?_, ?_, ?_⟩
        · rw [hcase.2]
        · rw [hcase.2]; norm_num
        · intro h
          rw [hcase.1] at h
          exact absurd h (by decide)
        · intro h
          rw [hcase.1] at h
          exact absurd h (by decide)
        · intro _
          exact Or.inl hcase.2
      · have hbs := bestCoverage_spec pe clauses
        have hs0 : 0 ≤ (bestCoverage pe clauses).2 := hbs.2.1
        have hs1 : (bestCoverage pe clauses).2 < 1 := hbs.2.2.1
        rcases hband with ⟨hdec, hconf, hlo, hhi⟩ | ⟨hdec, hconf, hlo⟩ | ⟨hdec, hconf, hlo⟩
        · refine ⟨?_, ?_, hwshape, ?_, ?_, ?_⟩
          · rw [hconf]; exact hs0
          · rw [hconf]; exact le_of_lt hs1
          · intro h
            rw [hdec] at h
            exact absurd h (by decide)
          · intro h
            rw [hdec] at h
            exact absurd h (by decide)
          · intro _
            exact Or.inr ⟨pq, f, pe, rfl, henc, hf, hconf⟩
        · refine ⟨?_, ?_, hwshape, ?_, ?_, ?_⟩
          · rw [hconf]; exact hs0
          · rw [hconf]; exact le_of_lt hs1
          · intro _
            exact ⟨pq, f, pe, rfl, henc, hf, hconf⟩
          · intro h
            rw [hdec] at h
            exact absurd h (by decide)
          · intro h
            rw [hdec] at h
            exact absurd h (by decide)
        · refine ⟨?_, ?_, hwshape, ?_, ?_, ?_⟩
          · rw [hconf]
            refine le_min (by norm_num) ?_
            linarith
          · rw [hconf]
            refine le_trans (min_le_left _ _) (by norm_num)
          · intro h
            rw [hdec] at h
            exact absurd h (by decide)
          · intro _
            exact Or.inr ⟨pq, f, pe, rfl, henc, hf, hconf⟩
          · intro h
            rw [hdec] at h
            exact absurd h (by decide)

/-- Witness for C1 at a concrete input. -/
theorem claim_C1_witness :
    0 ≤ (make_decision none [] none).confidence ∧
      (make_decision none [] none).confidence ≤ 1 :=
  ⟨(claim_C1_confidence_bounds none [] none).1,
   (claim_C1_confidence_bounds none [] none).2.1⟩

/-- Claim C2 (amended): with a non-empty procedure, a nonzero policy
duration and a non-empty corpus, if the pool of periods extracted from the
relevant clauses is non-empty and the duration is below its minimum, the
decision is the fixed rejection record whose cited clauses are the first
two texts among relevant clauses that yielded at least one extracted
period (not among all relevant clauses); otherwise stage 1 yields no
decision and stage 2's result is returned. -/
theorem claim_C2_waiting_gate (enc : Option Encoder) (clauses : List Clause)
    (pq : ParsedQuery) (p : String) (dm : ℕ)
    (hp : pq.procedure = some p) (hpne : p ≠ "")
    (hd : pq.policy_duration_months = some dm) (hdne : dm ≠ 0)
    (hc : clauses ≠ []) :
    ((waitingScan enc (pyLower p) clauses).1 ≠ [] →
      dm < pyMin (waitingScan enc (pyLower p) clauses).1 →
      make_decision enc clauses (some pq) =
        { decision := "rejected",
          justification :=
            [Msg.waitingShortfall dm (pyMin (waitingScan enc (pyLower p) clauses).1) p],
          clauses := (waitingScan enc (pyLower p) clauses).2.take 2,
          confidence := 0.9 }) ∧
    ((waitingScan enc (pyLower p) clauses).1 = [] ∨
        pyMin (waitingScan enc (pyLower p) clauses).1 ≤ dm →
      check_waiting_period enc clauses pq = none ∧
      make_decision enc clauses (some pq) = check_procedure_coverage enc clauses pq) := by
  have hguard : (!truthyOptNat pq.policy_duration_months ||
      !truthyOptStr pq.procedure || clauses.isEmpty) = false := by
    rw [hp, hd, isEmpty_false_of_ne_nil hc]
    simp [truthyOptNat, truthyOptStr, hdne, hpne]
  have hunfold : check_waiting_period enc clauses pq =
      (if (waitingScan enc (pyLower p) clauses).1.isEmpty then none
       else if dm < pyMin (waitingScan enc (pyLower p) clauses).1 then
         some { decision := "rejected",
                justification :=
                  [Msg.waitingShortfall dm (pyMin (waitingScan enc (pyLower p) clauses).1) p],
                clauses := (waitingScan enc (pyLower p) clauses).2.take 2,
                confidence := 0.9 }
       else none) := by
    rw [check_waiting_period, if_neg (by rw [hguard]; exact Bool.false_ne_true)]
    simp only [hp, hd, Option.getD_some]
  constructor
  · intro hne hlt
    have hsome : check_waiting_period enc clauses pq =
        some { decision := "rejected",
               justification :=
                 [Msg.waitingShortfall dm (pyMin (waitingScan enc (pyLower p) clauses).1) p],
               clauses := (waitingScan enc (pyLower p) clauses).2.take 2,
               confidence := 0.9 } := by
      rw [hunfold, if_neg (by rw [isEmpty_false_of_ne_nil hne]; exact Bool.false_ne_true),
        if_pos hlt]
    rw [make_decision, hsome]
  · intro hor
    have hnone : check_waiting_period enc clauses pq = none := by
      rcases hor with hemp | hge
      · rw [hunfold, if_pos (by rw [hemp]; rfl)]
      · rw [hunfold]
        split
        · rfl
        · rw [if_neg (not_lt.mpr hge)]
    refine ⟨hnone, ?_⟩
    rw [make_decision, hnone]

/-- Counterexample for C2 as stated: with a relevant clause that yields no
extractable period, the rejection cites only the period-yielding clause,
not the first two relevant clause texts the claim (and spec wording)
prescribe. -/
theorem claim_C2_counterexample :
    (make_decision none [clauseNoNumber, clause24m] (some pqSurgery1m)).clauses
        = [clause24m.text] ∧
    (specRelevantTexts none "surgery" [clauseNoNumber, clause24m]).take 2
        = [clauseNoNumber.text, clause24m.text] ∧
    ([clause24m.text] : List String) ≠ [clauseNoNumber.text, clause24m.text] := by
  refine ⟨rfl, rfl, by decide⟩

/-- Witness for C2 (amended) at a concrete input. -/
theorem claim_C2_witness :
    make_decision none [clauseKnee24m] (some pqSurgery1m) =
      { decision := "rejected", justification := [Msg.waitingShortfall 1 24 "surgery"],
        clauses := [clauseKnee24m.text], confidence := 0.9 } := by
  have h := (claim_C2_waiting_gate none [clauseKnee24m] pqSurgery1m "surgery" 1
    rfl (by decide) rfl (by decide) (by simp)).1 (by decide) (by decide)
  exact h

/-- Claim C3: in stage 2, the best score `s` is the running maximum over
the clauses carrying a cached (non-empty, length-matching) embedding, the
cited clause is the first one attaining `s` (first-seen wins exact ties),
and the result is banded: `s > 0.45` with an exclusion keyword in the best
clause → rejected with `min 0.9 (s+0.1)`; `s > 0.45` otherwise → approved
with `s`; `0.25 < s ≤ 0.45` → needs review with `s`; `s ≤ 0.25` or no
scored clause → needs review with `0`; each branch cites at most the best
clause's text. -/
theorem claim_C3_coverage_bands (enc : Option Encoder) (clauses : List Clause)
    (pq : ParsedQuery) (p : String) (f : Encoder) (pe : List ℝ)
    (hp : pq.procedure = some p) (hpne : p ≠ "") (hc : clauses ≠ [])
    (henc : enc = some f) (hpe : f p = some pe) :
    ((bestCoverage pe clauses).2 =
      (clauses.filter (scoredB pe)).foldl (fun a c => max a (clauseSim pe c)) 0) ∧
    (0 < (bestCoverage pe clauses).2 →
      (bestCoverage pe clauses).1 =
        (clauses.filter (scoredB pe)).find?
          fun c => decide (clauseSim pe c = (bestCoverage pe clauses).2)) ∧
    ((bestCoverage pe clauses).2 ≤ 0 → (bestCoverage pe clauses).1 = none) ∧
    (∀ best, (bestCoverage pe clauses).1 = some best →
      (0.45 < (bestCoverage pe clauses).2 → hasExclusion best.text = true →
        check_procedure_coverage enc clauses pq =
          { decision := "rejected",
            justification := [Msg.excluded p (bestCoverage pe clauses).2],
            clauses := [best.text],
            confidence := min 0.9 ((bestCoverage pe clauses).2 + 0.1) }) ∧
      (0.45 < (bestCoverage pe clauses).2 → hasExclusion best.text = false →
        check_procedure_coverage enc clauses pq =
          { decision := "approved",
            justification := [Msg.covered p (bestCoverage pe clauses).2],
            clauses := [best.text],
            confidence := (bestCoverage pe clauses).2 }) ∧
      (0.25 < (bestCoverage pe clauses).2 → (bestCoverage pe clauses).2 ≤ 0.45 →
        check_procedure_coverage enc clauses pq =
          { decision := "needs_review",
            justification := [Msg.potentialCoverage p (bestCoverage pe clauses).2],
            clauses := [best.text],
            confidence := (bestCoverage pe clauses).2 }) ∧
      ((bestCoverage pe clauses).2 ≤ 0.25 →
        check_procedure_coverage enc clauses pq =
          { decision := "needs_review", justification := [Msg.notFound p],
            clauses := [], confidence := 0 })) ∧
    ((bestCoverage pe clauses).1 = none →
      check_procedure_coverage enc clauses pq =
        { decision := "needs_review", justification := [Msg.notFound p],
          clauses := [], confidence := 0 }) := by
  have hbs := bestCoverage_spec pe clauses
  subst henc
  have hguard : (!truthyOptStr pq.procedure || clauses.isEmpty ||
      (some f : Option Encoder).isNone) = false := by
    rw [hp, isEmpty_false_of_ne_nil hc]
    simp [truthyOptStr, hpne]
  have hstep : check_procedure_coverage (some f) clauses pq =
      (match (bestCoverage pe clauses).1 with
       | some best =>
         if 0.45 < (bestCoverage pe clauses).2 then
           if hasExclusion best.text then
             { decision := "rejected",
               justification := [Msg.excluded p (bestCoverage pe clauses).2],
               clauses := [best.text],
               confidence := min 0.9 ((bestCoverage pe clauses).2 + 0.1) }
           else
             { decision := "approved",
               justification := [Msg.covered p (bestCoverage pe clauses).2],
               clauses := [best.text],
               confidence := (bestCoverage pe clauses).2 }
         else if 0.25 < (bestCoverage pe clauses).2 then
           { decision := "needs_review",
             justification := [Msg.potentialCoverage p (bestCoverage pe clauses).2],
             clauses := [best.text],
             confidence := (bestCoverage pe clauses).2 }
         else
           { decision := "needs_review", justification := [Msg.notFound p],
             clauses := [], confidence := 0 }
       | none =>
         { decision := "needs_review", justification := [Msg.notFound p],
           clauses := [], confidence := 0 }) := by
    rw [check_procedure_coverage, if_neg (by rw [hguard]; exact Bool.false_ne_true)]
    simp only [hp, Option.getD_some, hpe]
  refine ⟨hbs.1, hbs.2.2.2.1, ?_, ?_, ?_⟩
  · intro hle
    rw [hbs.2.2.2.2 hle]
  · intro best hbm
    refine ⟨?_, ?_, ?_, ?_⟩
    · intro h45 hex
      rw [hstep, hbm]
      dsimp only
      rw [if_pos h45, if_pos hex]
    · intro h45 hex
      rw [hstep, hbm]
      dsimp only
      rw [if_pos h45, if_neg (by rw [hex]; exact Bool.false_ne_true)]
    · intro h25 h45
      rw [hstep, hbm]
      dsimp only
      rw [if_neg (not_lt.mpr h45), if_pos h25]
    · intro h25
      rw [hstep, hbm]
      dsimp only
      rw [if_neg, if_neg (not_lt.mpr h25)]
      intro h45
      exact absurd (le_trans h25 (by norm_num)) (not_le.mpr h45)
  · intro hbm
    rw [hstep, hbm]

/-- Witness for C3 at a concrete corpus and encoder. -/
theorem claim_C3_witness :
    (bestCoverage [(1 : ℝ)] [clauseCovered]).2 =
      ([clauseCovered].filter (scoredB [(1 : ℝ)])).foldl
        (fun a c => max a (clauseSim [(1 : ℝ)] c)) 0 :=
  (claim_C3_coverage_bands (some encOne) [clauseCovered] pqKneeOnly "knee surgery"
    encOne [(1 : ℝ)] rfl (by decide) (by simp) rfl rfl).1

/-- Claim C4 (amended): an absent (or empty) procedure or an empty corpus
makes `make_decision` return needs-review with confidence 0 (and it never
raises: it is a total function); with no encoder, stage 2 alone returns
needs-review with confidence 0, but `make_decision` may still reject
through the waiting-period gate (see the counterexample). -/
theorem claim_C4_missing_data (enc : Option Encoder) (clauses : List Clause)
    (pq : ParsedQuery)
    (h : pq.procedure = none ∨ pq.procedure = some "" ∨ clauses = []) :
    make_decision enc clauses (some pq) =
      { decision := "needs_review", justification := [Msg.missingInfo],
        clauses := [], confidence := 0 } ∧
    ∀ (pq2 : ParsedQuery) (clauses2 : List Clause),
      check_procedure_coverage none clauses2 pq2 =
        { decision := "needs_review", justification := [Msg.missingInfo],
          clauses := [], confidence := 0 } := by
  have hcov2 : ∀ (pq2 : ParsedQuery) (clauses2 : List Clause),
      check_procedure_coverage none clauses2 pq2 =
        { decision := "needs_review", justification := [Msg.missingInfo],
          clauses := [], confidence := 0 } := by
    intro pq2 clauses2
    rw [check_procedure_coverage, if_pos]
    simp
  refine ⟨?_, hcov2⟩
  have hguard : (!truthyOptStr pq.procedure || clauses.isEmpty || enc.isNone)
      = true ∧ (!truthyOptNat pq.policy_duration_months ||
        !truthyOptStr pq.procedure || clauses.isEmpty) = true := by
    rcases h with h | h | h
    · rw [h]
      simp [truthyOptStr]
    · rw [h]
      simp [truthyOptStr]
    · rw [h]
      simp
  have hw : check_waiting_period enc clauses pq = none := by
    rw [check_waiting_period, if_pos hguard.2]
  have hcov : check_procedure_coverage enc clauses pq =
      { decision := "needs_review", justification := [Msg.missingInfo],
        clauses := [], confidence := 0 } := by
    rw [check_procedure_coverage, if_pos hguard.1]
  rw [make_decision, hw]
  exact hcov

/-- Counterexample for C4 as stated: with no encoder at all but a known
procedure, duration and corpus, the waiting-period gate still fires and
`make_decision` returns `rejected` with confidence 0.9, not `needs_review`
with confidence 0. -/
theorem claim_C4_counterexample :
    make_decision none [clauseKnee24m] (some pqSurgery1m) =
      { decision := "rejected", justification := [Msg.waitingShortfall 1 24 "surgery"],
        clauses := ["waiting period of 24 months for knee surgery"],
        confidence := 0.9 } ∧
    ("rejected" : String) ≠ "needs_review" ∧ (0.9 : ℝ) ≠ 0 := by
  refine ⟨rfl, by decide, by norm_num⟩

/-- Witness for C4 (amended) at a concrete input. -/
theorem claim_C4_witness :
    make_decision none [] (some pqNoProc) =
      { decision := "needs_review", justification := [Msg.missingInfo],
        clauses := [], confidence := 0 } :=
  (claim_C4_missing_data none [] pqNoProc (Or.inl rfl)).1

/-- Claim C5 (code bug): for the input `"90 days"` the source stores
`90 * 12 = 1080` months — the keyword check `'y' in unit` also matches
inside `"days"`, so every `days` unit takes the years branch — while the
specified (and internally intended) days conversion
`max(1, round(90/30))` gives 3. -/
theorem claim_C5_days_unit_bug :
    (parse_query (.strInput "90 days")).policy_duration_months = some 1080 ∧
    Nat.max 1 (pyRoundDiv 90 30) = 3 ∧ (1080 : ℕ) ≠ 3 :=
  ⟨rfl, by decide, by decide⟩

/-! Helper lemmas for C6: every assignment of the age field is guarded by
the range check. -/

theorem applyAgeGender_age_le (ord : AgeGenderOrd) (cap : String × Option String)
    (a : ℕ) (h : (applyAgeGender ord cap).1 = some a) : a ≤ 120 := by
  cases ord with
  | ageFirst =>
    rw [applyAgeGender] at h
    split_ifs at h with h1
    dsimp only at h
    split_ifs at h with h2
    rw [Option.some.injEq] at h
    rw [← h]
    exact h2
  | genderFirst =>
    rw [applyAgeGender] at h
    cases hc2 : cap.2 with
    | none => rw [hc2] at h; simp at h
    | some d =>
      rw [hc2] at h
      dsimp only at h
      split_ifs at h with h1 h2
      dsimp only at h
      rw [Option.some.injEq] at h
      rw [← h]
      exact h2

theorem ageGenderScan_age_le :
    ∀ (l : List (M (String × Option String) × AgeGenderOrd)) (cs : List Char) (a : ℕ),
      (ageGenderScan l cs).1 = some a → a ≤ 120 := by
  intro l
  induction l with
  | nil =>
    intro cs a h
    simp [ageGenderScan] at h
  | cons mo rest ih =>
    intro cs a h
    obtain ⟨m, ord⟩ := mo
    simp only [ageGenderScan] at h
    cases hm : reSearchL m cs with
    | some cap =>
      rw [hm] at h
      exact applyAgeGender_age_le ord cap a h
    | none =>
      rw [hm] at h
      exact ih cs a h

theorem ageOnlyScan_age_le :
    ∀ (l : List (M String)) (cs : List Char) (a : ℕ),
      ageOnlyScan l cs = some a → a ≤ 120 := by
  intro l
  induction l with
  | nil =>
    intro cs a h
    simp [ageOnlyScan] at h
  | cons m ms ih =>
    intro cs a h
    simp only [ageOnlyScan] at h
    cases hm : reSearchL m cs with
    | some d =>
      rw [hm] at h
      dsimp only at h
      split_ifs at h with h1
      · rw [Option.some.injEq] at h
        rw [← h]
        exact h1
      · exact ih cs a h
    | none =>
      rw [hm] at h
      exact ih cs a h

/-- Claim C6 (amended): the age field is never set to a value outside
`[0,120]`; but a combined age+gender pattern whose captured age is out of
range still ends the combined cascade (the loop breaks on any match), so
later combined patterns are not tried — only the age-only and gender-only
fallbacks still run. -/
theorem claim_C6_age_range :
    (∀ (q : RawInput) (a : ℕ), (parse_query q).age = some a → a ≤ 120) ∧
    (∀ (m : M (String × Option String)) (ord : AgeGenderOrd)
        (rest : List (M (String × Option String) × AgeGenderOrd))
        (cs : List Char) (cap : String × Option String),
      reSearchL m cs = some cap →
      ageGenderScan ((m, ord) :: rest) cs = applyAgeGender ord cap) := by
  constructor
  · intro q a h
    cases q with
    | noneInput => simp [parse_query, emptyParsed] at h
    | nonStrInput => simp [parse_query, emptyParsed] at h
    | strInput s =>
      rw [parse_query] at h
      by_cases hs : s = ""
      · rw [if_pos hs] at h
        simp [emptyParsed] at h
      · rw [if_neg hs] at h
        dsimp only at h
        cases hag : (ageGenderScan ageGenderPatterns (pyStrip (pyLower s)).toList).1 with
        | some a2 =>
          rw [hag] at h
          rw [Option.some.injEq] at h
          rw [← h]
          exact ageGenderScan_age_le _ _ a2 hag
        | none =>
          rw [hag] at h
          exact ageOnlyScan_age_le _ _ a h
  · intro m ord rest cs cap h
    simp only [ageGenderScan, h]

/-- Counterexample for C6 as stated: on `"150m 25 female"` the first
combined pattern matches with the out-of-range age 150 and the cascade
stops, although the second combined pattern would have matched with the
in-range age 25; the non-match reading of the claim (cascade continues)
would have produced age 25, the source leaves the age unknown. -/
theorem claim_C6_counterexample :
    (parse_query (.strInput "150m 25 female")).age = none ∧
    reSearchL agPat1 (pyStrip (pyLower "150m 25 female")).toList
      = some ("25", some "female") ∧
    ageGenderScanClaim ageGenderPatterns (pyStrip (pyLower "150m 25 female")).toList
      = (some 25, some "Female") ∧
    (none : Option ℕ) ≠ some 25 := by
  refine ⟨rfl, rfl, rfl, by decide⟩

/-- Witness for C6 (amended) at a concrete input. -/
theorem claim_C6_witness :
    ageGenderScan ageGenderPatterns (pyStrip (pyLower "46m knee")).toList
      = applyAgeGender .ageFirst ("46", some "m") :=
  claim_C6_age_range.2 agPat0 .ageFirst
    [(agPat1, .ageFirst), (agPat2, .genderFirst), (agPat3, .ageFirst),
     (agPat4, .genderFirst)]
    (pyStrip (pyLower "46m knee")).toList ("46", some "m") rfl

/-- Claim C7: `parse_query` never raises (it is a total function); on
empty, `None` or non-string input it returns the all-unknown record, and
the raw input is always preserved unchanged in `raw_query`. -/
theorem claim_C7_malformed_input :
    (∀ q : RawInput, (parse_query q).raw_query = q) ∧
    (∀ q : RawInput, q = .noneInput ∨ q = .nonStrInput ∨ q = .strInput "" →
      parse_query q = emptyParsed q) := by
  constructor
  · intro q
    cases q with
    | noneInput => rfl
    | nonStrInput => rfl
    | strInput s =>
      rw [parse_query]
      by_cases hs : s = ""
      · rw [if_pos hs]
        rfl
      · rw [if_neg hs]
  · intro q h
    rcases h with h | h | h <;> rw [h] <;> rfl

/-- Witness for C7 at a concrete input. -/
theorem claim_C7_witness : parse_query .noneInput = emptyParsed .noneInput :=
  claim_C7_malformed_input.2 .noneInput (Or.inl rfl)

/-- Claim C8: `compute_similarity` always lands in `[0,1]`; the additive
epsilon keeps the cosine denominator strictly positive even for
zero-magnitude vectors; an encoder failure on either text yields `0.0`
instead of propagating (the function is total); and a nonpositive raw
cosine collapses to 0 under the clamp. -/
theorem claim_C8_similarity_bounds :
    (∀ (enc : Option Encoder) (t1 t2 : String),
      0 ≤ compute_similarity enc t1 t2 ∧ compute_similarity enc t1 t2 ≤ 1) ∧
    (∀ a b : List ℝ, 0 < norml a * norml b + eps) ∧
    (∀ (f : Encoder) (t1 t2 : String), f t1 = none ∨ f t2 = none →
      compute_similarity (some f) t1 t2 = 0) ∧
    (∀ (f : Encoder) (t1 t2 : String) (e1 e2 : List ℝ),
      f t1 = some e1 → f t2 = some e2 → e1.length = e2.length → dotl e1 e2 ≤ 0 →
      compute_similarity (some f) t1 t2 = 0) := by
  refine ⟨?_, cosine_denom_pos, ?_, ?_⟩
  · intro enc t1 t2
    cases enc with
    | none => exact ⟨le_refl 0, zero_le_one⟩
    | some f =>
      rw [compute_similarity]
      split
      · exact ⟨le_refl 0, zero_le_one⟩
      · cases hf1 : f t1 with
        | none => exact ⟨le_refl 0, zero_le_one⟩
        | some e1 =>
          cases hf2 : f t2 with
          | none => exact ⟨le_refl 0, zero_le_one⟩
          | some e2 =>
            dsimp only
            split
            · constructor
              · exact le_max_left 0 _
              · exact max_le zero_le_one (min_le_left 1 _)
            · exact ⟨le_refl 0, zero_le_one⟩
  · intro f t1 t2 h
    rw [compute_similarity]
    split
    · rfl
    · rcases h with h | h
      · rw [h]
      · rw [h]
        cases hf1 : f t1 <;> rfl
  · intro f t1 t2 e1 e2 hf1 hf2 hlen hdot
    rw [compute_similarity]
    split
    · rfl
    · rw [hf1, hf2]
      dsimp only
      rw [if_pos hlen]
      have hx : dotl e1 e2 / (norml e1 * norml e2 + eps) ≤ 0 :=
        div_nonpos_iff.mpr (Or.inr ⟨hdot, (cosine_denom_pos e1 e2).le⟩)
      rw [min_eq_right (le_trans hx zero_le_one), max_eq_left hx]

/-- Witness for C8 at a concrete failing encoder. -/
theorem claim_C8_witness :
    compute_similarity (some (fun _ => none)) "a" "b" = 0 :=
  claim_C8_similarity_bounds.2.2.1 (fun _ => none) "a" "b" (Or.inl rfl)

/-- Claim C9: the scenario `"46M knee surgery 6-month policy Pune"` parses
to exactly age 46, gender Male, procedure "Knee Surgery", location "Pune"
and a 6-month policy duration. -/
theorem claim_C9_scenario :
    parse_query (.strInput "46M knee surgery 6-month policy Pune") =
      { raw_query := .strInput "46M knee surgery 6-month policy Pune",
        age := some 46, gender := some "Male", procedure := some "Knee Surgery",
        location := some "Pune", policy_duration_months := some 6 } := rfl

/-- Claim C10: the decision functions are read-only with respect to their
inputs — in the state-passing rendering the parsed query and every clause
of the corpus (text and embedding) are returned unchanged, and the result
is the pure function of the inputs. -/
theorem claim_C10_read_only (enc : Option Encoder)
    (st : Option ParsedQuery × List Clause) (st2 : ParsedQuery × List Clause) :
    (make_decision_st enc st).2 = st ∧
    (make_decision_st enc st).1 = make_decision enc st.2 st.1 ∧
    (check_waiting_period_st enc st2).2 = st2 ∧
    (check_procedure_coverage_st enc st2).2 = st2 := by
  obtain ⟨s1, s2⟩ := st
  refine ⟨?_, ?_, rfl, rfl⟩
  · cases s1 with
    | none => rfl
    | some pq =>
      rw [make_decision_st]
      dsimp only [check_waiting_period_st]
      cases check_waiting_period enc s2 pq <;> rfl
  · cases s1 with
    | none => rfl
    | some pq =>
      rw [make_decision_st, make_decision]
      dsimp only [check_waiting_period_st]
      cases check_waiting_period enc s2 pq <;> rfl

end PolicyQuery

